import Mathlib

/-!
# fart-go: path resolution, remote fetch and type-stub projection

A shallow embedding of `main.go`.

Modelling conventions.

* A Go `string` is a Lean `String`.  The only bytes the program looks for are
  the one-byte separators "/" and "."; in UTF-8 such a byte never occurs inside
  a longer code point, so splitting and slicing at these separators is the same
  on bytes and on characters.
* A Go slice is a `List`; the `nil` slice is the empty list.
* A Go `error` is `Option GoError`, `none` being `nil`.
* A run-time panic (index out of range, the explicit `panic(err)`) is the
  outer `Option`: `none` means the function did not return.
* The packages `strings`, `net/http`, `io/ioutil`, `go/parser` and `go/ast`
  are library code.  Their pure functions are given by their documented
  behaviour; the network and the Go parser are parameters.
-/

/-! ## Package `strings` -/

namespace strings

/-- Split slices `s` into the substrings separated by `sep`; a string without
the separator (the empty string included) gives a single fragment. -/
def Split (s : String) (sep : Char) : List String :=
  (s.data.splitOn sep).map String.mk

/-- Join concatenates the elements, placing `sep` between neighbours. -/
def Join : List String → String → String
  | [], _ => ""
  | [a], _ => a
  | a :: b :: rest, sep => a ++ sep ++ Join (b :: rest) sep

/-- Position of the last occurrence of `c` in a character list, if any. -/
def lastIndexFrom (c : Char) : List Char → Option Nat
  | [] => none
  | x :: xs =>
    match lastIndexFrom c xs with
    | some i => some (i + 1)
    | none => if x = c then some 0 else none

/-- LastIndex returns the index of the last instance of `c` in `s`, or `-1`
when `c` is not present. -/
def LastIndex (s : String) (c : Char) : Int :=
  match lastIndexFrom c s.data with
  | some i => (i : Int)
  | none => -1

/-- HasSuffix tests whether `s` ends with `suffix`. -/
def HasSuffix (s suffix : String) : Bool :=
  suffix.data.isSuffixOf s.data

end strings

/-! ## Package constants and errors -/

def DefaultFilename : String := "__fart.go"
def GoFileExt : String := ".go"
def ProtoBufFileExt : String := ".proto"
def TypeScriptFileExt : String := ".ts"
def DefaultTargetExt : String := TypeScriptFileExt

/-- The error values of the program: the two package-level errors, and any
error produced by a library call (identified by its text). -/
inductive GoError where
  | ErrStatusBadRequest
  | ErrFileNotFound
  | other (msg : String)
  deriving DecidableEq, Repr

/-- The text of an error, `err.Error()`. -/
def GoError.Error : GoError → String
  | .ErrStatusBadRequest =>
    "Invalid path. Expects /<author>/<repository>/<branch>/path/to/file..."
  | .ErrFileNotFound => "File not found."
  | .other msg => msg

/-! ## Path resolution -/

/-- The slice expression `s[i:]`, for an index within the string (the only use
takes the index from `LastIndex`). -/
def sliceFrom (s : String) (i : Int) : String := ⟨s.data.drop i.toNat⟩

/-- The slice expression `s[:i]`, for an index within the string. -/
def sliceTo (s : String) (i : Int) : String := ⟨s.data.take i.toNat⟩

/-- The function `removeExt`: cuts the last fragment at its last "." and joins
the fragments with "/".  Indexing `fragments[len(fragments)-1]` panics on an
empty slice. -/
def removeExt (fragments : List String) : Option (String × String) :=
  if fragments.length = 0 then none
  else
    let filename := fragments.getD (fragments.length - 1) ""
    let extIndex := strings.LastIndex filename '.'
    if extIndex = -1 then
      some (strings.Join fragments "/", "")
    else
      let ext := sliceFrom filename extIndex
      let fragments := fragments.set (fragments.length - 1) (sliceTo filename extIndex)
      some (strings.Join fragments "/", ext)

/-- The function `parsePath`: the candidate URLs, the extension and the
error. -/
def parsePath (path : String) : Option (List String × String × Option GoError) :=
  let fragments := strings.Split path '/'
  if fragments.length < 3 then
    some ([], "", some GoError.ErrStatusBadRequest)
  else
    let author := fragments.getD 0 ""
    let repository := fragments.getD 1 ""
    let branch := fragments.getD 2 ""
    let pathToFile := fragments.drop 3
    let pathToFile := if pathToFile.length = 0 then [DefaultFilename] else pathToFile
    match removeExt pathToFile with
    | none => none
    | some (pathWithoutExt, ext) =>
      let ext := if ext.length = 0 then DefaultTargetExt else ext
      let possibleGitHubURLs := [GoFileExt, ProtoBufFileExt].foldl
        (fun possibleGitHubURLs lang =>
          let nextPossibleGitHubURLFragments :=
            ["https://github.com", author, repository, branch, "raw", pathWithoutExt ++ lang]
          let nextPossibleGitHubURL := strings.Join nextPossibleGitHubURLFragments "/"
          possibleGitHubURLs ++ [nextPossibleGitHubURL])
        []
      some (possibleGitHubURLs, ext, none)

/-! ## Remote fetch -/

namespace http

/-- A response of `http.Get`, reduced to what the program uses: the outcome of
reading its body to the end with `ioutil.ReadAll`. -/
structure Response where
  Body : Except GoError String

/-- The network: what `http.Get` answers for a URL, a transport error or a
response. -/
abbrev Transport := String → Except GoError Response

end http

/-- The function `findFirstExistingFile`.  The second argument and the second
component of the result are the URLs requested so far, oldest first.  The
deferred `resp.Body.Close()` has no effect on the result and is left out. -/
def findFirstExistingFile (get : http.Transport) :
    List String → List String → (String × String × Option GoError) × List String
  | [], requested => (("", "", some GoError.ErrFileNotFound), requested)
  | possibleGitHubURL :: rest, requested =>
    match get possibleGitHubURL with
    | .ok resp =>
      match resp.Body with
      | .error err => (("", "", some err), requested ++ [possibleGitHubURL])
      | .ok body => ((possibleGitHubURL, body, none), requested ++ [possibleGitHubURL])
    | .error _ => findFirstExistingFile get rest (requested ++ [possibleGitHubURL])

/-! ## Syntax trees and the projection -/

namespace ast

mutual
/-- A syntax-tree node with its children in the order `ast.Walk` visits them.
A `TypeSpec` carries the declared identifier `Name.Name`; every other kind of
node is `Other`. -/
inductive Node where
  | TypeSpec (Name : String) (children : NodeList)
  | Other (children : NodeList)
/-- A sequence of nodes. -/
inductive NodeList where
  | nil
  | cons (head : Node) (tail : NodeList)
end

mutual
/-- Inspect traverses the tree in depth-first order: it calls `f` on the node;
when `f` answers `true` it goes through the children in order and then calls
`f` on `nil`.  The callback updates a state of type `σ`. -/
def Inspect {σ : Type} (f : Option Node → σ → Bool × σ) : Node → σ → σ
  | .TypeSpec name children, s =>
    let r := f (some (.TypeSpec name children)) s
    if r.1 then (f none (InspectList f children r.2)).2 else r.2
  | .Other children, s =>
    let r := f (some (.Other children)) s
    if r.1 then (f none (InspectList f children r.2)).2 else r.2
/-- Inspect on every node of a sequence, in order. -/
def InspectList {σ : Type} (f : Option Node → σ → Bool × σ) : NodeList → σ → σ
  | .nil, s => s
  | .cons head tail, s => InspectList f tail (Inspect f head s)
end

end ast

/-- The Go parser, `parser.ParseFile(fset, src, fileContent, 0)`: a syntax tree
or a parse error. -/
abbrev Parser := String → String → Except GoError ast.Node

/-- The callback that `convertGoTypeDefsToTypeScript` hands to `ast.Inspect`:
a type switch with the single case `*ast.TypeSpec`, always answering `true`. -/
def inspectTypeSpec (n : Option ast.Node) (result : String) : Bool × String :=
  match n with
  | some (.TypeSpec name _) => (true, result ++ "export interface " ++ name ++ " \x7b\x7d\n")
  | _ => (true, result)

/-- The function `convertGoTypeDefsToTypeScript`; it panics when the source
does not parse. -/
def convertGoTypeDefsToTypeScript (ParseFile : Parser) (src fileContent : String) :
    Option String :=
  match ParseFile src fileContent with
  | .error _ => none
  | .ok f => some (ast.Inspect inspectTypeSpec f "")

/-! ## The request handler -/

namespace http

/-- The part of a request that the handler reads. -/
structure URL where
  Path : String
  deriving DecidableEq, Repr

/-- An incoming request. -/
structure Request where
  URL : URL
  deriving DecidableEq, Repr

/-- What a handler has put on a `ResponseWriter`: the header map, the status
line once it has been written, and the body bytes written so far. -/
structure ResponseWriter where
  header : List (String × String)
  status : Option Nat
  body : String
  deriving DecidableEq, Repr

/-- A response writer nothing has been written to. -/
def ResponseWriter.fresh : ResponseWriter := ⟨[], none, ""⟩

/-- The call `w.Header().Set(key, value)`: replaces the values held for `key`. -/
def ResponseWriter.HeaderSet (w : ResponseWriter) (key value : String) : ResponseWriter :=
  { w with header := w.header.filter (fun kv => kv.1 != key) ++ [(key, value)] }

/-- The call `w.WriteHeader(code)`; a second status line is ignored. -/
def ResponseWriter.WriteHeader (w : ResponseWriter) (code : Nat) : ResponseWriter :=
  match w.status with
  | none => { w with status := some code }
  | some _ => w

/-- The call `w.Write(data)`: writes the status line 200 first unless one was
written before. -/
def ResponseWriter.Write (w : ResponseWriter) (data : String) : ResponseWriter :=
  let w := w.WriteHeader 200
  { w with body := w.body ++ data }

def StatusBadRequest : Nat := 400
def StatusNotFound : Nat := 404

/-- The function `http.Error`: replies with the error text as a plain-text line
and the given status code. -/
def Error (w : ResponseWriter) (error : String) (code : Nat) : ResponseWriter :=
  let w := w.HeaderSet "Content-Type" "text/plain; charset=utf-8"
  let w := w.HeaderSet "X-Content-Type-Options" "nosniff"
  let w := w.WriteHeader code
  w.Write (error ++ "\n")

end http

/-- A call that the handler makes to one of its two collaborators. -/
inductive Call where
  | fetch (urls : List String)
  | project (src fileContent : String)
  deriving DecidableEq, Repr

/-- The state the handler leaves behind: the response, and the calls it made to
the fetcher and the projector, oldest first. -/
structure Handled where
  w : http.ResponseWriter
  calls : List Call
  deriving DecidableEq, Repr

/-- The body of `HandleRequest`, over a fetcher and a projector. -/
def HandleRequestWith (fetch : List String → String × String × Option GoError)
    (project : String → String → Option String)
    (w : http.ResponseWriter) (req : http.Request) : Option Handled :=
  match parsePath req.URL.Path with
  | none => none
  | some (_, _, some err) => some ⟨http.Error w err.Error http.StatusBadRequest, []⟩
  | some (pathsOnGitHub, _, none) =>
    match fetch pathsOnGitHub with
    | (_, _, some err) =>
      some ⟨http.Error w err.Error http.StatusNotFound, [.fetch pathsOnGitHub]⟩
    | (targetURL, fileContent, none) =>
      if strings.HasSuffix targetURL GoFileExt then
        let w := w.HeaderSet "Content-Type" "application/typescript"
        match project targetURL fileContent with
        | none => none
        | some text =>
          some ⟨w.Write text, [.fetch pathsOnGitHub, .project targetURL fileContent]⟩
      else
        some ⟨w, [.fetch pathsOnGitHub]⟩

/-- The function `HandleRequest`, over the network and the Go parser. -/
def HandleRequest (get : http.Transport) (ParseFile : Parser)
    (w : http.ResponseWriter) (req : http.Request) : Option Handled :=
  HandleRequestWith (fun urls => (findFirstExistingFile get urls []).1)
    (convertGoTypeDefsToTypeScript ParseFile) w req

/-! ## Reference notions used to state the properties -/

/-- A network given as a function from a URL to a transport failure or the
body of the response: every response that arrives can be read to the end. -/
def transportOf (t : String → Except GoError String) : http.Transport :=
  fun url =>
    match t url with
    | .error err => .error err
    | .ok body => .ok ⟨.ok body⟩

namespace ast

mutual
/-- The nodes of a tree in depth-first pre-order: the node, then the nodes of
its children from first to last. -/
def Node.preorder : Node → List Node
  | .TypeSpec name children => .TypeSpec name children :: children.preorder
  | .Other children => .Other children :: children.preorder
/-- The nodes of a sequence of trees, tree after tree. -/
def NodeList.preorder : NodeList → List Node
  | .nil => []
  | .cons head tail => head.preorder ++ tail.preorder
end

/-- The declared name when the node is a type declaration. -/
def Node.typeName? : Node → Option String
  | .TypeSpec name _ => some name
  | .Other _ => none

end ast

/-- The stub of one type declaration. -/
def renderStub (name : String) : String := "export interface " ++ name ++ " \x7b\x7d\n"

/-- A syntax tree of the shape the parser gives for
"package p; type A []int; type B int; type C func()": a file
with three declarations, each holding one type declaration, the first with a
nested element type. -/
def sampleFile : ast.Node :=
  .Other (.cons
    (.Other (.cons (.TypeSpec "A" (.cons (.Other (.cons (.Other .nil) .nil)) .nil)) .nil))
    (.cons (.Other (.cons (.TypeSpec "B" (.cons (.Other .nil) .nil)) .nil))
    (.cons (.Other (.cons (.TypeSpec "C" (.cons (.Other .nil) .nil)) .nil)) .nil)))

/-! ## Facts about the string functions -/

namespace strings

theorem Join_data (l : List String) (sep : String) :
    (Join l sep).data = List.intercalate sep.data (l.map String.data) := by
  induction l with
  | nil => simp [Join, List.intercalate]
  | cons a t ih =>
    cases t with
    | nil => simp [Join, List.intercalate]
    | cons b rest =>
      simp only [Join, String.data_append, ih]
      simp [List.intercalate, List.intersperse]

theorem not_mem_of_mem_splitOn (x : Char) (xs : List Char) :
    ∀ l ∈ xs.splitOn x, x ∉ l := by
  induction xs with
  | nil => simp
  | cons hd tl ih =>
    intro l hl
    simp only [List.splitOn, List.splitOnP_cons] at hl ih
    split_ifs at hl with h
    · rcases List.mem_cons.1 hl with rfl | hl
      · simp
      · exact ih l hl
    · cases hs : List.splitOnP (fun y => y == x) tl with
      | nil => simp [hs] at hl
      | cons h0 t0 =>
        rw [hs] at hl ih
        simp only [List.modifyHead, List.mem_cons] at hl
        rcases hl with rfl | hl
        · have := ih h0 (by simp)
          simp only [List.mem_cons, not_or]
          refine ⟨?_, this⟩
          intro hx; apply h; simp [hx]
        · exact ih l (by simp [hl])

theorem Split_eq_iff (path : String) (frags : List String) :
    Split path '/' = frags ↔
      frags ≠ [] ∧ (∀ f ∈ frags, '/' ∉ f.data) ∧ path = Join frags "/" := by
  constructor
  · intro h
    subst h
    refine ⟨?_, ?_, ?_⟩
    · simp [Split, List.splitOn, List.splitOnP_ne_nil]
    · intro f hf
      simp only [Split, List.mem_map] at hf
      obtain ⟨l, hl, rfl⟩ := hf
      exact not_mem_of_mem_splitOn _ _ l hl
    · apply String.ext
      rw [Join_data]
      simp only [Split, List.map_map]
      have : (String.data ∘ String.mk) = id := by funext l; rfl
      rw [this, List.map_id]
      exact (List.intercalate_splitOn path.data '/').symm
  · rintro ⟨hne, hfree, rfl⟩
    simp only [Split, Join_data]
    rw [List.splitOn_intercalate]
    · rw [List.map_map]
      have : (String.mk ∘ String.data) = id := by funext l; rfl
      rw [this, List.map_id]
    · intro l hl
      simp only [List.mem_map] at hl
      obtain ⟨f, hf, rfl⟩ := hl
      exact hfree f hf
    · simpa using hne

end strings

namespace strings

theorem lastIndexFrom_eq_none (c : Char) (l : List Char) (h : c ∉ l) :
    lastIndexFrom c l = none := by
  induction l with
  | nil => rfl
  | cons x xs ih =>
    simp only [List.mem_cons, not_or] at h
    simp [lastIndexFrom, ih h.2, Ne.symm h.1]

theorem lastIndexFrom_append (c : Char) (s e : List Char) (h : c ∉ e) :
    lastIndexFrom c (s ++ c :: e) = some s.length := by
  induction s with
  | nil => simp [lastIndexFrom, lastIndexFrom_eq_none c e h]
  | cons x xs ih => simp [lastIndexFrom, ih]

theorem LastIndex_eq_neg_one (s : String) (c : Char) (h : c ∉ s.data) :
    LastIndex s c = -1 := by
  simp [LastIndex, lastIndexFrom_eq_none c s.data h]

theorem LastIndex_append (stem e : String) (c : Char) (h : c ∉ e.data) :
    LastIndex (stem ++ String.singleton c ++ e) c = (stem.length : Int) := by
  have : (stem ++ String.singleton c ++ e).data = stem.data ++ c :: e.data := by
    simp [String.data_append, String.singleton]
  simp [LastIndex, this, lastIndexFrom_append c stem.data e.data h]

end strings

/-! ## Facts about `removeExt` and `parsePath` -/

theorem removeExt_no_dot (dirs : List String) (file : String) (h : '.' ∉ file.data) :
    removeExt (dirs ++ [file]) = some (strings.Join (dirs ++ [file]) "/", "") := by
  simp [removeExt, strings.LastIndex_eq_neg_one file '.' h]

theorem removeExt_dot (dirs : List String) (stem e : String) (h : '.' ∉ e.data) :
    removeExt (dirs ++ [stem ++ "." ++ e]) =
      some (strings.Join (dirs ++ [stem]) "/", "." ++ e) := by
  have hidx := strings.LastIndex_append stem e '.' h
  have hs : String.singleton '.' = "." := rfl
  rw [hs] at hidx
  have hne : (stem.length : Int) ≠ -1 := by omega
  have h1 : sliceFrom (stem ++ "." ++ e) (stem.length : Int) = "." ++ e := by
    apply String.ext
    simp only [sliceFrom, String.data_append, Int.toNat_ofNat, List.append_assoc]
    exact List.drop_left _ _
  have h2 : sliceTo (stem ++ "." ++ e) (stem.length : Int) = stem := by
    apply String.ext
    simp only [sliceTo, String.data_append, Int.toNat_ofNat, List.append_assoc]
    exact List.take_left _ _
  simp [removeExt, hidx, hne, h1, h2]

theorem url_eq (author repository branch stem lang : String) :
    strings.Join ["https://github.com", author, repository, branch, "raw", stem ++ lang] "/" =
      "https://github.com/" ++ author ++ "/" ++ repository ++ "/" ++ branch ++ "/raw/"
        ++ stem ++ lang := by
  have h1 : ("https://github.com/" : String) = "https://github.com" ++ "/" := by decide
  have h2 : ("/raw/" : String) = "/" ++ "raw" ++ "/" := by decide
  rw [h1, h2]
  simp only [strings.Join, String.append_assoc]

theorem parsePath_of_Split (path author repository branch : String) (rest : List String)
    (stem ext : String)
    (hs : strings.Split path '/' = author :: repository :: branch :: rest)
    (hr : removeExt (if rest.length = 0 then [DefaultFilename] else rest) = some (stem, ext)) :
    parsePath path =
      some (["https://github.com/" ++ author ++ "/" ++ repository ++ "/" ++ branch ++ "/raw/"
              ++ stem ++ ".go",
             "https://github.com/" ++ author ++ "/" ++ repository ++ "/" ++ branch ++ "/raw/"
              ++ stem ++ ".proto"],
            if ext.length = 0 then ".ts" else ext, none) := by
  simp only [parsePath, hs, List.length_cons, List.getD_cons_zero, List.getD_cons_succ,
    List.drop_succ_cons, List.drop_zero]
  rw [if_neg (by omega), hr]
  simp only [List.foldl_cons, List.foldl_nil, List.nil_append, List.cons_append, url_eq]
  rfl

theorem removeExt_returns (fragments : List String) (h : fragments ≠ []) :
    ∃ stem ext, removeExt fragments = some (stem, ext) := by
  have hl : fragments.length ≠ 0 := by simpa using h
  unfold removeExt
  rw [if_neg hl]
  by_cases hi : strings.LastIndex (fragments.getD (fragments.length - 1) "") '.' = -1
  · simp only [hi, if_true]
    exact ⟨_, _, rfl⟩
  · simp only [hi, if_false]
    exact ⟨_, _, rfl⟩

theorem Split_of_three_le (path : String) (h : 3 ≤ (strings.Split path '/').length) :
    ∃ author repository branch rest,
      strings.Split path '/' = author :: repository :: branch :: rest := by
  match hs : strings.Split path '/' with
  | [] => simp [hs] at h
  | [_] => simp [hs] at h
  | [_, _] => simp [hs] at h
  | a :: r :: b :: rest => exact ⟨a, r, b, rest, rfl⟩

theorem pathToFile_ne_nil (rest : List String) :
    (if rest.length = 0 then [DefaultFilename] else rest) ≠ [] := by
  split_ifs with h
  · simp
  · intro h0; simp [h0] at h

theorem parsePath_returns (path : String) (h : 3 ≤ (strings.Split path '/').length) :
    ∃ go proto ext, parsePath path = some ([go, proto], ext, none) := by
  obtain ⟨a, r, b, rest, hs⟩ := Split_of_three_le path h
  obtain ⟨stem, ext, hr⟩ := removeExt_returns _ (pathToFile_ne_nil rest)
  exact ⟨_, _, _, parsePath_of_Split path a r b rest stem ext hs hr⟩

theorem parsePath_short (path : String) (h : (strings.Split path '/').length < 3) :
    parsePath path = some ([], "", some GoError.ErrStatusBadRequest) := by
  simp [parsePath, h]

namespace strings

theorem Join_append_last (l : List String) (x t sep : String) :
    Join (l ++ [x]) sep ++ t = Join (l ++ [x ++ t]) sep := by
  induction l with
  | nil => simp [Join]
  | cons a rest ih =>
    cases rest with
    | nil => simp [Join, String.append_assoc]
    | cons b rest =>
      have ih2 : Join (b :: (rest ++ [x])) sep ++ t = Join (b :: (rest ++ [x ++ t])) sep := ih
      show (a ++ sep ++ Join (b :: (rest ++ [x])) sep) ++ t =
        a ++ sep ++ Join (b :: (rest ++ [x ++ t])) sep
      rw [String.append_assoc, ih2]

theorem HasSuffix_append (s suffix : String) : HasSuffix (s ++ suffix) suffix = true := by
  simp [HasSuffix, String.data_append]

end strings

/-! ## The path resolver -/

/-- C1: when the path splits on "/" into author, repository, branch and the file
fragments `dirs ++ [file]`, `parsePath` returns exactly the two candidate URLs
host/author/repository/branch/raw/stem.go and the same with .proto, in that
order, where the stem is the file fragments joined by "/" with the last one cut
just before its last "." (left whole when it has none). -/
theorem parsePath_candidate_urls (path author repository branch : String)
    (dirs : List String) (file cut : String)
    (hsplit : strings.Split path '/' = author :: repository :: branch :: (dirs ++ [file]))
    (hcut : ('.' ∉ file.data ∧ cut = file) ∨
      ∃ e : String, '.' ∉ e.data ∧ file = cut ++ "." ++ e) :
    ∃ ext, parsePath path =
      some (["https://github.com/" ++ author ++ "/" ++ repository ++ "/" ++ branch ++ "/raw/"
              ++ strings.Join (dirs ++ [cut]) "/" ++ ".go",
             "https://github.com/" ++ author ++ "/" ++ repository ++ "/" ++ branch ++ "/raw/"
              ++ strings.Join (dirs ++ [cut]) "/" ++ ".proto"], ext, none) := by
  have hne : ¬ (dirs ++ [file]).length = 0 := by simp
  rcases hcut with ⟨hfile, rfl⟩ | ⟨e, he, rfl⟩
  · refine ⟨_, parsePath_of_Split path author repository branch _
      (strings.Join (dirs ++ [cut]) "/") "" hsplit ?_⟩
    rw [if_neg hne]
    exact removeExt_no_dot dirs cut hfile
  · refine ⟨_, parsePath_of_Split path author repository branch _
      (strings.Join (dirs ++ [cut]) "/") ("." ++ e) hsplit ?_⟩
    rw [if_neg hne]
    exact removeExt_dot dirs cut e he

theorem parsePath_candidate_urls_witness :
    ∃ ext, parsePath "alice/repo/main/pkg/types" =
      some (["https://github.com/alice/repo/main/raw/pkg/types.go",
             "https://github.com/alice/repo/main/raw/pkg/types.proto"], ext, none) :=
  parsePath_candidate_urls "alice/repo/main/pkg/types" "alice" "repo" "main" ["pkg"]
    "types" "types" (by decide) (Or.inl ⟨by decide, rfl⟩)

/-- C2: `parsePath` fails with `ErrStatusBadRequest`, no URLs and an empty
extension, exactly when the path splits on "/" into fewer than 3 fragments; with
3 or more fragments it returns (no panic inside `removeExt`), without error, and
with exactly 2 candidate URLs. -/
theorem parsePath_fails_iff (path : String) :
    (parsePath path = some ([], "", some GoError.ErrStatusBadRequest) ↔
      (strings.Split path '/').length < 3) ∧
    (3 ≤ (strings.Split path '/').length →
      ∃ urls ext, parsePath path = some (urls, ext, none) ∧ urls.length = 2) := by
  constructor
  · constructor
    · intro hfail
      by_contra hlen
      obtain ⟨go, proto, ext, hp⟩ := parsePath_returns path (by omega)
      rw [hp] at hfail
      simp at hfail
    · exact parsePath_short path
  · intro hlen
    obtain ⟨go, proto, ext, hp⟩ := parsePath_returns path hlen
    exact ⟨[go, proto], ext, hp, rfl⟩

theorem parsePath_fails_iff_witness :
    parsePath "a/b" = some ([], "", some GoError.ErrStatusBadRequest) ∧
    ∃ urls ext, parsePath "a/b/c" = some (urls, ext, none) ∧ urls.length = 2 :=
  ⟨(parsePath_fails_iff "a/b").1.2 (by decide), (parsePath_fails_iff "a/b/c").2 (by decide)⟩

/-- C3 (the code at the failing input): the inbound path
"/alice/repo/main/pkg/types" starts with "/", so its first fragment is empty:
`parsePath` takes "" for the author, "alice" for the repository, "repo" for the
branch, and "main" for the first file fragment. -/
theorem parsePath_leading_slash :
    parsePath (http.Request.mk ⟨"/alice/repo/main/pkg/types"⟩).URL.Path =
      some (["https://github.com//alice/repo/raw/main/pkg/types.go",
             "https://github.com//alice/repo/raw/main/pkg/types.proto"], ".ts", none) ∧
    "https://github.com//alice/repo/raw/main/pkg/types.go" ≠
      "https://github.com/" ++ "alice" ++ "/" ++ "repo" ++ "/" ++ "main" ++ "/raw/"
        ++ "pkg/types" ++ ".go" := by
  decide

/-- C4 (as stated, refuted): "alice/repo/main" has three fragments and no file
fragment, and the extension `parsePath` returns for it is ".go", not the
default ".ts". -/
theorem parsePath_target_ext_counterexample :
    3 ≤ (strings.Split "alice/repo/main" '/').length ∧
    (strings.Split "alice/repo/main" '/').drop 3 = [] ∧
    parsePath "alice/repo/main" =
      some (["https://github.com/alice/repo/main/raw/__fart.go",
             "https://github.com/alice/repo/main/raw/__fart.proto"], ".go", none) ∧
    ".go" ≠ DefaultTargetExt := by
  decide

/-- C4 (amended): for a path with at least 3 fragments `parsePath` returns
without error, and the extension it returns is ".go" (that of the substituted
default filename) when there is no file fragment, the default ".ts" when the
last file fragment has no ".", and otherwise the part of the last fragment from
its last "." onward. -/
theorem parsePath_target_ext (path : String)
    (hlen : 3 ≤ (strings.Split path '/').length) :
    ∃ urls ext, parsePath path = some (urls, ext, none) ∧
      ((strings.Split path '/').drop 3 = [] → ext = ".go") ∧
      (∀ dirs file, (strings.Split path '/').drop 3 = dirs ++ [file] →
        '.' ∉ file.data → ext = ".ts") ∧
      (∀ dirs cut e, (strings.Split path '/').drop 3 = dirs ++ [cut ++ "." ++ e] →
        '.' ∉ e.data → ext = "." ++ e) := by
  obtain ⟨a, r, b, rest, hs⟩ := Split_of_three_le path hlen
  obtain ⟨stem, ext, hr⟩ := removeExt_returns _ (pathToFile_ne_nil rest)
  refine ⟨_, _, parsePath_of_Split path a r b rest stem ext hs hr, ?_, ?_, ?_⟩
  · intro h0
    simp only [hs, List.drop_succ_cons, List.drop_zero] at h0
    subst h0
    have : removeExt [DefaultFilename] = some ("__fart", ".go") := by decide
    simp only [List.length_nil, if_true] at hr
    rw [this] at hr
    cases hr
    decide
  · intro dirs file h0 hfile
    simp only [hs, List.drop_succ_cons, List.drop_zero] at h0
    subst h0
    rw [if_neg (by simp), removeExt_no_dot dirs file hfile] at hr
    cases hr
    rfl
  · intro dirs cut e h0 he
    simp only [hs, List.drop_succ_cons, List.drop_zero] at h0
    subst h0
    rw [if_neg (by simp), removeExt_dot dirs cut e he] at hr
    cases hr
    have : ("." ++ e).length ≠ 0 := by
      rw [String.length_append]
      have : (".").length = 1 := by decide
      omega
    rw [if_neg this]

theorem parsePath_target_ext_witness :
    3 ≤ (strings.Split "alice/repo/main/pkg/types.d.ts" '/').length ∧
    ∃ urls, parsePath "alice/repo/main/pkg/types.d.ts" = some (urls, ".ts", none) := by
  refine ⟨by decide, ?_⟩
  obtain ⟨urls, ext, hp, _, _, hdot⟩ :=
    parsePath_target_ext "alice/repo/main/pkg/types.d.ts" (by decide)
  have hext : ext = "." ++ "ts" := hdot ["pkg"] "types.d" "ts" (by decide) (by decide)
  subst hext
  exact ⟨urls, hp⟩

/-- C5: a path of exactly the three fragments author/repository/branch gets the
default filename: its candidate URLs are those of the same path followed by
"/" and `DefaultFilename`, namely host/author/repository/branch/raw/__fart.go
and the same with .proto. -/
theorem parsePath_default_filename (path author repository branch : String)
    (hsplit : strings.Split path '/' = [author, repository, branch]) :
    ∃ ext ext',
      parsePath path =
        some (["https://github.com/" ++ author ++ "/" ++ repository ++ "/" ++ branch
                ++ "/raw/__fart.go",
               "https://github.com/" ++ author ++ "/" ++ repository ++ "/" ++ branch
                ++ "/raw/__fart.proto"], ext, none) ∧
      parsePath (author ++ "/" ++ repository ++ "/" ++ branch ++ "/" ++ DefaultFilename) =
        some (["https://github.com/" ++ author ++ "/" ++ repository ++ "/" ++ branch
                ++ "/raw/__fart.go",
               "https://github.com/" ++ author ++ "/" ++ repository ++ "/" ++ branch
                ++ "/raw/__fart.proto"], ext', none) := by
  have hrem : removeExt [DefaultFilename] = some ("__fart", ".go") := by decide
  have hgo : ("/raw/__fart.go" : String) = "/raw/" ++ "__fart" ++ ".go" := by decide
  have hproto : ("/raw/__fart.proto" : String) = "/raw/" ++ "__fart" ++ ".proto" := by decide
  have hfree := ((strings.Split_eq_iff path _).1 hsplit).2.1
  have hsplit' : strings.Split
      (author ++ "/" ++ repository ++ "/" ++ branch ++ "/" ++ DefaultFilename) '/' =
      author :: repository :: branch :: [DefaultFilename] := by
    rw [strings.Split_eq_iff]
    refine ⟨by simp, ?_, ?_⟩
    · intro f hf
      simp only [List.mem_cons, List.mem_singleton, List.not_mem_nil, or_false] at hf
      rcases hf with rfl | rfl | rfl | rfl
      · exact hfree _ (by simp)
      · exact hfree _ (by simp)
      · exact hfree _ (by simp)
      · decide
    · simp only [strings.Join, String.append_assoc]
  have hif : (if (".go" : String).length = 0 then ".ts" else ".go") = ".go" := by decide
  refine ⟨".go", ".go", ?_, ?_⟩
  · rw [parsePath_of_Split path author repository branch [] "__fart" ".go" hsplit hrem,
      hgo, hproto, hif]
    simp only [String.append_assoc]
  · rw [parsePath_of_Split _ author repository branch [DefaultFilename] "__fart" ".go"
      hsplit' hrem, hgo, hproto, hif]
    simp only [String.append_assoc]

theorem parsePath_default_filename_witness :
    ∃ ext ext',
      parsePath "alice/repo/main" =
        some (["https://github.com/alice/repo/main/raw/__fart.go",
               "https://github.com/alice/repo/main/raw/__fart.proto"], ext, none) ∧
      parsePath "alice/repo/main/__fart.go" =
        some (["https://github.com/alice/repo/main/raw/__fart.go",
               "https://github.com/alice/repo/main/raw/__fart.proto"], ext', none) :=
  parsePath_default_filename "alice/repo/main" "alice" "repo" "main" (by decide)

/-- C6: the candidate URLs do not depend on the extension the caller supplies.
When the path `p` has author, repository, branch and file fragments whose last
one has no ".", and `s` has neither "." nor "/", then `parsePath (p ++ "." ++ s)`
returns the same two URLs as `parsePath p` (the first ending in ".go", the
second in ".proto"); only the extension differs, "." ++ s instead of ".ts". -/
theorem parsePath_urls_ignore_ext (p s author repository branch : String)
    (dirs : List String) (file : String)
    (hsplit : strings.Split p '/' = author :: repository :: branch :: (dirs ++ [file]))
    (hfile : '.' ∉ file.data) (hdot : '.' ∉ s.data) (hslash : '/' ∉ s.data) :
    ∃ go proto,
      parsePath p = some ([go, proto], ".ts", none) ∧
      parsePath (p ++ "." ++ s) = some ([go, proto], "." ++ s, none) ∧
      strings.HasSuffix go ".go" = true ∧ strings.HasSuffix proto ".proto" = true := by
  have hne : ¬ (dirs ++ [file]).length = 0 := by simp
  have hne' : ¬ (dirs ++ [file ++ "." ++ s]).length = 0 := by simp
  obtain ⟨_, hfree, hp⟩ := (strings.Split_eq_iff p _).1 hsplit
  have hsplit' : strings.Split (p ++ "." ++ s) '/' =
      author :: repository :: branch :: (dirs ++ [file ++ "." ++ s]) := by
    rw [strings.Split_eq_iff]
    refine ⟨by simp, ?_, ?_⟩
    · intro f hf
      have hf' : f ∈ (author :: repository :: branch :: dirs) ++ [file ++ "." ++ s] := by
        simpa using hf
      rcases List.mem_append.1 hf' with hf1 | hf1
      · exact hfree f (by
          have : f ∈ (author :: repository :: branch :: dirs) ++ [file] :=
            List.mem_append_left _ hf1
          simpa using this)
      · have hfl : f = file ++ "." ++ s := by simpa using hf1
        subst hfl
        have hfile' : '/' ∉ file.data := hfree file (by simp)
        have hd : (".").data = ['.'] := rfl
        simp only [String.data_append, List.mem_append, hd, List.mem_singleton, not_or]
        exact ⟨⟨hfile', by decide⟩, hslash⟩
    · rw [hp, String.append_assoc]
      exact (strings.Join_append_last (author :: repository :: branch :: dirs) file
        ("." ++ s) "/").trans (by rw [String.append_assoc]; rfl)
  have hlen : ("." ++ s).length ≠ 0 := by
    rw [String.length_append]
    have : (".").length = 1 := by decide
    omega
  refine ⟨"https://github.com/" ++ author ++ "/" ++ repository ++ "/" ++ branch ++ "/raw/"
      ++ strings.Join (dirs ++ [file]) "/" ++ ".go",
    "https://github.com/" ++ author ++ "/" ++ repository ++ "/" ++ branch ++ "/raw/"
      ++ strings.Join (dirs ++ [file]) "/" ++ ".proto", ?_, ?_, ?_, ?_⟩
  · rw [parsePath_of_Split p author repository branch _
      (strings.Join (dirs ++ [file]) "/") "" hsplit
      (by rw [if_neg hne]; exact removeExt_no_dot dirs file hfile)]
    rfl
  · rw [parsePath_of_Split (p ++ "." ++ s) author repository branch _
      (strings.Join (dirs ++ [file]) "/") ("." ++ s) hsplit'
      (by rw [if_neg hne']; exact removeExt_dot dirs file s hdot), if_neg hlen]
  · exact strings.HasSuffix_append _ _
  · exact strings.HasSuffix_append _ _

theorem parsePath_urls_ignore_ext_witness :
    ∃ go proto,
      parsePath "alice/repo/main/pkg/types" = some ([go, proto], ".ts", none) ∧
      parsePath ("alice/repo/main/pkg/types" ++ "." ++ "d") =
        some ([go, proto], "." ++ "d", none) ∧
      strings.HasSuffix go ".go" = true ∧ strings.HasSuffix proto ".proto" = true :=
  parsePath_urls_ignore_ext "alice/repo/main/pkg/types" "d" "alice" "repo" "main" ["pkg"]
    "types" (by decide) (by decide) (by decide) (by decide)

/-! ## The remote fetcher -/

theorem findFirstExistingFile_success (t : String → Except GoError String)
    (pre : List String) (url : String) (post : List String) (body : String)
    (requested : List String)
    (hpre : ∀ u ∈ pre, ∃ e, t u = .error e) (hurl : t url = .ok body) :
    findFirstExistingFile (transportOf t) (pre ++ url :: post) requested =
      ((url, body, none), requested ++ pre ++ [url]) := by
  induction pre generalizing requested with
  | nil => simp [findFirstExistingFile, transportOf, hurl]
  | cons u rest ih =>
    obtain ⟨e, he⟩ := hpre u (by simp)
    have := ih (requested ++ [u]) (fun v hv => hpre v (by simp [hv]))
    simp [findFirstExistingFile, transportOf, he, this]

theorem findFirstExistingFile_all_fail (t : String → Except GoError String)
    (urls : List String) (requested : List String)
    (hall : ∀ u ∈ urls, ∃ e, t u = .error e) :
    findFirstExistingFile (transportOf t) urls requested =
      (("", "", some GoError.ErrFileNotFound), requested ++ urls) := by
  induction urls generalizing requested with
  | nil => simp [findFirstExistingFile]
  | cons u rest ih =>
    obtain ⟨e, he⟩ := hall u (by simp)
    have := ih (requested ++ [u]) (fun v hv => hall v (by simp [hv]))
    simp [findFirstExistingFile, transportOf, he, this]

/-- C8: over a network that answers each URL with a transport failure or a
body, `findFirstExistingFile` returns the first URL of the list whose request
does not fail, with the body of its response, having requested exactly the
candidates up to and including it, once each and in order; when every
candidate fails (the empty list included) it returns `ErrFileNotFound`, having
requested every candidate once. -/
theorem findFirstExistingFile_first_success (t : String → Except GoError String)
    (urls : List String) :
    (∀ pre url post body, urls = pre ++ url :: post →
      (∀ u ∈ pre, ∃ e, t u = .error e) → t url = .ok body →
      findFirstExistingFile (transportOf t) urls [] = ((url, body, none), pre ++ [url])) ∧
    ((∀ u ∈ urls, ∃ e, t u = .error e) →
      findFirstExistingFile (transportOf t) urls [] =
        (("", "", some GoError.ErrFileNotFound), urls)) := by
  constructor
  · intro pre url post body hurls hpre hurl
    subst hurls
    simpa using findFirstExistingFile_success t pre url post body [] hpre hurl
  · intro hall
    simpa using findFirstExistingFile_all_fail t urls [] hall

theorem findFirstExistingFile_first_success_witness :
    findFirstExistingFile
        (transportOf (fun url =>
          if url = "https://good" then .ok "content" else .error (.other "connection refused")))
        ["https://bad", "https://good", "https://third"] [] =
      (("https://good", "content", none), ["https://bad", "https://good"]) ∧
    findFirstExistingFile
        (transportOf (fun _ => .error (.other "connection refused")))
        ["https://bad", "https://worse"] [] =
      (("", "", some GoError.ErrFileNotFound), ["https://bad", "https://worse"]) :=
  ⟨(findFirstExistingFile_first_success _ _).1 ["https://bad"] "https://good"
      ["https://third"] "content" rfl
      (fun u hu => by
        have hu' : u = "https://bad" := by simpa using hu
        subst hu'
        exact ⟨_, rfl⟩)
      rfl,
   (findFirstExistingFile_first_success _ _).2 (fun _ _ => ⟨_, rfl⟩)⟩

/-! ## The projector -/

theorem foldl_append_string (l : List String) (acc : String) :
    l.foldl (fun r s => r ++ s) acc = acc ++ String.join l := by
  induction l generalizing acc with
  | nil => simp [String.join]
  | cons a rest ih =>
    simp only [List.foldl_cons, String.join]
    rw [ih, ih ("" ++ a), String.empty_append, String.append_assoc]

theorem String_join_append (l₁ l₂ : List String) :
    String.join (l₁ ++ l₂) = String.join l₁ ++ String.join l₂ := by
  simp only [String.join, List.foldl_append]
  rw [foldl_append_string l₂ (List.foldl _ _ _)]
  rfl

theorem String_join_cons (a : String) (l : List String) :
    String.join (a :: l) = a ++ String.join l := by
  simp only [String.join, List.foldl_cons]
  rw [foldl_append_string l ("" ++ a), String.empty_append]
  rfl

mutual
theorem Inspect_inspectTypeSpec (n : ast.Node) (acc : String) :
    ast.Inspect inspectTypeSpec n acc =
      acc ++ String.join ((n.preorder.filterMap ast.Node.typeName?).map renderStub) := by
  cases n with
  | TypeSpec name children =>
    simp only [ast.Inspect, inspectTypeSpec, if_true, ast.Node.preorder, List.filterMap_cons,
      ast.Node.typeName?, List.map_cons, String_join_cons]
    rw [InspectList_inspectTypeSpec children]
    simp only [renderStub, String.append_assoc]
  | Other children =>
    simp only [ast.Inspect, inspectTypeSpec, if_true, ast.Node.preorder, List.filterMap_cons,
      ast.Node.typeName?]
    rw [InspectList_inspectTypeSpec children]
theorem InspectList_inspectTypeSpec (l : ast.NodeList) (acc : String) :
    ast.InspectList inspectTypeSpec l acc =
      acc ++ String.join ((l.preorder.filterMap ast.Node.typeName?).map renderStub) := by
  cases l with
  | nil => simp [ast.InspectList, ast.NodeList.preorder, String.join]
  | cons head tail =>
    simp only [ast.InspectList, ast.NodeList.preorder, List.filterMap_append, List.map_append,
      String_join_append]
    rw [Inspect_inspectTypeSpec head, InspectList_inspectTypeSpec tail, String.append_assoc]
end

/-- C9: for every source text that parses, `convertGoTypeDefsToTypeScript`
returns exactly the concatenation, over the type declarations met in the
depth-first pre-order traversal of the whole tree, of the line
"export interface " ++ name followed by an empty pair of braces: one stub per
declaration, in traversal order, whatever the declaration contains. -/
theorem convertGoTypeDefsToTypeScript_stubs (ParseFile : Parser) (src fileContent : String)
    (f : ast.Node) (hparse : ParseFile src fileContent = .ok f) :
    convertGoTypeDefsToTypeScript ParseFile src fileContent =
      some (String.join ((f.preorder.filterMap ast.Node.typeName?).map
        (fun name => "export interface " ++ name ++ " \x7b\x7d\n"))) := by
  simp only [convertGoTypeDefsToTypeScript, hparse]
  rw [Inspect_inspectTypeSpec, String.empty_append]
  rfl

theorem convertGoTypeDefsToTypeScript_stubs_witness :
    convertGoTypeDefsToTypeScript (fun _ _ => .ok sampleFile) "types.go"
        "package p; type A []int; type B int; type C func()" =
      some "export interface A \x7b\x7d\nexport interface B \x7b\x7d\nexport interface C \x7b\x7d\n" :=
  (convertGoTypeDefsToTypeScript_stubs (fun _ _ => .ok sampleFile) "types.go"
    "package p; type A []int; type B int; type C func()" sampleFile rfl).trans
    (by decide)

/-! ## The request coordinator -/

theorem parsePath_total (path : String) :
    (∃ urls ext, parsePath path = some (urls, ext, none)) ∨
      parsePath path = some ([], "", some GoError.ErrStatusBadRequest) := by
  by_cases h : (strings.Split path '/').length < 3
  · exact Or.inr (parsePath_short path h)
  · obtain ⟨go, proto, ext, hp⟩ := parsePath_returns path (by omega)
    exact Or.inl ⟨_, _, hp⟩

/-- C7 (the code at the failing input): the inbound path "/a/b" splits into the
three fragments "", "a", "b", so `parsePath` accepts it and `HandleRequest`
goes on to the fetcher; when no candidate answers, the reply is 404
"File not found." after both candidates were requested, not 400. -/
theorem HandleRequest_short_inbound_path (ParseFile : Parser) :
    HandleRequest (fun _ => .error (.other "no such host")) ParseFile
        http.ResponseWriter.fresh ⟨⟨"/a/b"⟩⟩ =
      some ⟨⟨[("Content-Type", "text/plain; charset=utf-8"),
              ("X-Content-Type-Options", "nosniff")], some 404, "File not found.\n"⟩,
            [.fetch ["https://github.com//a/b/raw/__fart.go",
                     "https://github.com//a/b/raw/__fart.proto"]]⟩ ∧
    (findFirstExistingFile (fun _ => .error (.other "no such host"))
        ["https://github.com//a/b/raw/__fart.go",
         "https://github.com//a/b/raw/__fart.proto"] []).2 =
      ["https://github.com//a/b/raw/__fart.go", "https://github.com//a/b/raw/__fart.proto"] := by
  have hp : parsePath "/a/b" =
      some (["https://github.com//a/b/raw/__fart.go",
             "https://github.com//a/b/raw/__fart.proto"], ".go", none) := by decide
  refine ⟨?_, rfl⟩
  simp only [HandleRequest, HandleRequestWith, hp, findFirstExistingFile]
  decide

theorem http_Error_fresh (e : String) (code : Nat) :
    http.Error http.ResponseWriter.fresh e code =
      ⟨[("Content-Type", "text/plain; charset=utf-8"),
        ("X-Content-Type-Options", "nosniff")], some code, e ++ "\n"⟩ := by
  simp [http.Error, http.ResponseWriter.fresh, http.ResponseWriter.HeaderSet,
    http.ResponseWriter.WriteHeader, http.ResponseWriter.Write]

theorem HandleRequestWith_outcomes (fetch : List String → String × String × Option GoError)
    (project : String → String → Option String) (req : http.Request) :
    (∃ urls ext err, parsePath req.URL.Path = some (urls, ext, some err) ∧
      HandleRequestWith fetch project http.ResponseWriter.fresh req =
        some ⟨⟨[("Content-Type", "text/plain; charset=utf-8"),
                ("X-Content-Type-Options", "nosniff")], some 400, err.Error ++ "\n"⟩, []⟩) ∨
    (∃ urls ext url content err, parsePath req.URL.Path = some (urls, ext, none) ∧
      fetch urls = (url, content, some err) ∧
      HandleRequestWith fetch project http.ResponseWriter.fresh req =
        some ⟨⟨[("Content-Type", "text/plain; charset=utf-8"),
                ("X-Content-Type-Options", "nosniff")], some 404, err.Error ++ "\n"⟩,
              [.fetch urls]⟩) ∨
    (∃ urls ext url content text, parsePath req.URL.Path = some (urls, ext, none) ∧
      fetch urls = (url, content, none) ∧ strings.HasSuffix url ".go" = true ∧
      project url content = some text ∧
      HandleRequestWith fetch project http.ResponseWriter.fresh req =
        some ⟨⟨[("Content-Type", "application/typescript")], some 200, text⟩,
              [.fetch urls, .project url content]⟩) ∨
    (∃ urls ext url content, parsePath req.URL.Path = some (urls, ext, none) ∧
      fetch urls = (url, content, none) ∧ strings.HasSuffix url ".go" = true ∧
      project url content = none ∧
      HandleRequestWith fetch project http.ResponseWriter.fresh req = none) ∨
    (∃ urls ext url content, parsePath req.URL.Path = some (urls, ext, none) ∧
      fetch urls = (url, content, none) ∧ strings.HasSuffix url ".go" = false ∧
      HandleRequestWith fetch project http.ResponseWriter.fresh req =
        some ⟨⟨[], none, ""⟩, [.fetch urls]⟩) := by
  rcases parsePath_total req.URL.Path with ⟨urls, ext, hp⟩ | hp
  · right
    rcases hf : fetch urls with ⟨url, content, err⟩
    cases err with
    | some err =>
      left
      refine ⟨urls, ext, url, content, err, hp, hf, ?_⟩
      simp only [HandleRequestWith, hp, hf, http_Error_fresh]
      rfl
    | none =>
      right
      by_cases hs : strings.HasSuffix url ".go" = true
      · have hs' : strings.HasSuffix url GoFileExt = true := hs
        cases hpr : project url content with
        | some text =>
          left
          refine ⟨urls, ext, url, content, text, hp, hf, hs, hpr, ?_⟩
          simp only [HandleRequestWith, hp, hf, hs', if_true, hpr]
          simp [http.ResponseWriter.fresh, http.ResponseWriter.HeaderSet,
            http.ResponseWriter.WriteHeader, http.ResponseWriter.Write]
        | none =>
          right; left
          refine ⟨urls, ext, url, content, hp, hf, hs, hpr, ?_⟩
          simp only [HandleRequestWith, hp, hf, hs', if_true, hpr]
      · right; right
        have hs0 : strings.HasSuffix url ".go" = false := by simpa using hs
        refine ⟨urls, ext, url, content, hp, hf, hs0, ?_⟩
        have hs' : strings.HasSuffix url GoFileExt = false := hs0
        simp [HandleRequestWith, hp, hf, hs', http.ResponseWriter.fresh]
  · left
    refine ⟨[], "", GoError.ErrStatusBadRequest, hp, ?_⟩
    simp only [HandleRequestWith, hp, http_Error_fresh]
    rfl

/-- C10 (as stated, refuted): the request "/alice/repo/main/types" is resolved
without error, the first candidate is fetched and ends with ".go", but its
content does not parse: the projector panics and `HandleRequest` ends in none
of the four outcomes, it leaves no response at all. -/
theorem HandleRequest_outcomes_counterexample :
    parsePath "/alice/repo/main/types" =
      some (["https://github.com//alice/repo/raw/main/types.go",
             "https://github.com//alice/repo/raw/main/types.proto"], ".ts", none) ∧
    (findFirstExistingFile (fun _ => .ok ⟨.ok "<html>Not Found</html>"⟩)
        ["https://github.com//alice/repo/raw/main/types.go",
         "https://github.com//alice/repo/raw/main/types.proto"] []).1 =
      ("https://github.com//alice/repo/raw/main/types.go", "<html>Not Found</html>", none) ∧
    strings.HasSuffix "https://github.com//alice/repo/raw/main/types.go" GoFileExt = true ∧
    convertGoTypeDefsToTypeScript (fun _ _ => .error (.other "expected package"))
        "https://github.com//alice/repo/raw/main/types.go" "<html>Not Found</html>" = none ∧
    HandleRequest (fun _ => .ok ⟨.ok "<html>Not Found</html>"⟩)
        (fun _ _ => .error (.other "expected package"))
        http.ResponseWriter.fresh ⟨⟨"/alice/repo/main/types"⟩⟩ = none := by
  decide

/-- C10 (amended): over every network and every parser, `HandleRequest` ends
each request in exactly one of five ways, decided in this order, calling the
fetcher and the projector at most once each: status 400 with the error text
when `parsePath` fails (no collaborator called); status 404 with the error text
when `findFirstExistingFile` fails; when the matched URL ends with ".go" and
`convertGoTypeDefsToTypeScript` returns a text, status 200 with that text as
body and Content-Type "application/typescript"; when the matched URL ends with
".go" and `convertGoTypeDefsToTypeScript` panics (the content does not parse),
the handler aborts with it and completes no response; otherwise nothing is
written: empty body, no header, no status. -/
theorem HandleRequest_outcomes (get : http.Transport) (ParseFile : Parser)
    (req : http.Request) :
    (∃ urls ext err, parsePath req.URL.Path = some (urls, ext, some err) ∧
      HandleRequest get ParseFile http.ResponseWriter.fresh req =
        some ⟨⟨[("Content-Type", "text/plain; charset=utf-8"),
                ("X-Content-Type-Options", "nosniff")], some 400, err.Error ++ "\n"⟩, []⟩) ∨
    (∃ urls ext url content err, parsePath req.URL.Path = some (urls, ext, none) ∧
      (findFirstExistingFile get urls []).1 = (url, content, some err) ∧
      HandleRequest get ParseFile http.ResponseWriter.fresh req =
        some ⟨⟨[("Content-Type", "text/plain; charset=utf-8"),
                ("X-Content-Type-Options", "nosniff")], some 404, err.Error ++ "\n"⟩,
              [.fetch urls]⟩) ∨
    (∃ urls ext url content text, parsePath req.URL.Path = some (urls, ext, none) ∧
      (findFirstExistingFile get urls []).1 = (url, content, none) ∧
      strings.HasSuffix url ".go" = true ∧
      convertGoTypeDefsToTypeScript ParseFile url content = some text ∧
      HandleRequest get ParseFile http.ResponseWriter.fresh req =
        some ⟨⟨[("Content-Type", "application/typescript")], some 200, text⟩,
              [.fetch urls, .project url content]⟩) ∨
    (∃ urls ext url content, parsePath req.URL.Path = some (urls, ext, none) ∧
      (findFirstExistingFile get urls []).1 = (url, content, none) ∧
      strings.HasSuffix url ".go" = true ∧
      convertGoTypeDefsToTypeScript ParseFile url content = none ∧
      HandleRequest get ParseFile http.ResponseWriter.fresh req = none) ∨
    (∃ urls ext url content, parsePath req.URL.Path = some (urls, ext, none) ∧
      (findFirstExistingFile get urls []).1 = (url, content, none) ∧
      strings.HasSuffix url ".go" = false ∧
      HandleRequest get ParseFile http.ResponseWriter.fresh req =
        some ⟨⟨[], none, ""⟩, [.fetch urls]⟩) :=
  HandleRequestWith_outcomes (fun urls => (findFirstExistingFile get urls []).1)
    (convertGoTypeDefsToTypeScript ParseFile) req
